import Mathlib

/-!
Verification of the tlock time-lock encryption core (`tlock.go`).

The embedding models the package's exported operations
(`EncryptWithRound`, `EncryptWithDuration`, `encrypt`, `Decrypt`,
`decryptDEK`, `CalculateEncryptionID`) as pure Lean functions.  External
collaborators (network, AEAD, frame codec, IBE primitive, BLS beacon
verifier, random source) are passed in as function-valued parameters,
mirroring the Go interfaces.  Byte strings are `List Nat` with each
element below 256 where it matters; machine words use explicit `% 2 ^ w`.
Calls to collaborators are recorded in an event trace so that temporal
claims (ordering of verification and IBE decryption, call counts) can be
stated.
-/

namespace Tlock

/-- Byte strings, as in Go `[]byte`. -/
abbrev Bytes := List Nat

/-- Go `error` values as the core observes them: the sentinel errors of
the `io` package, the package's own `ErrTooEarly`, context cancellation,
plain message errors, and `fmt.Errorf("...: %w", err)` wrapping. -/
inductive GoErr where
  | EOF
  | ErrUnexpectedEOF
  | ErrTooEarly
  | canceled
  | msg (s : String)
  | wrap (s : String) (cause : GoErr)
deriving DecidableEq, Repr

/-- Go `errors.Is`: compare with the target, unwrapping `%w` chains. -/
def errorsIs : GoErr → GoErr → Bool
  | .wrap s c, t => (decide (GoErr.wrap s c = t)) || errorsIs c t
  | e, t => decide (e = t)

/-- A `context.Context` as far as the core can observe it. -/
structure Ctx where
  cancelled : Bool
deriving DecidableEq

/-- `MetaData` from tlock.go. -/
structure MetaData where
  RoundNumber : Nat
  ChainHash : String
deriving DecidableEq, Repr

/-- `CipherDEK` from tlock.go. -/
structure CipherDEK where
  KyberPoint : Bytes
  CipherV : Bytes
  CipherW : Bytes
deriving DecidableEq, Repr

/-- `CipherInfo` from tlock.go. -/
structure CipherInfo where
  MetaData : MetaData
  CipherDEK : CipherDEK
  CipherData : Bytes
deriving DecidableEq, Repr

/-! ## SHA-256 (used by `CalculateEncryptionID`)

Executable SHA-256 over byte lists, all 32-bit arithmetic taken
`% 2 ^ 32`, following FIPS 180-4. -/

/-- Truncate to a 32-bit word. -/
def w32 (n : Nat) : Nat := n % 4294967296

/-- Right rotation of a 32-bit word by `k` bits. -/
def rotr32 (k x : Nat) : Nat := w32 ((x >>> k) ||| (x <<< (32 - k)))

/-- SHA-256 `Ch` function. -/
def shaCh (e f g : Nat) : Nat := (e &&& f) ^^^ ((e ^^^ 4294967295) &&& g)

/-- SHA-256 `Maj` function. -/
def shaMaj (a b c : Nat) : Nat := (a &&& b) ^^^ (a &&& c) ^^^ (b &&& c)

/-- SHA-256 `Σ0`. -/
def bsig0 (x : Nat) : Nat := rotr32 2 x ^^^ rotr32 13 x ^^^ rotr32 22 x

/-- SHA-256 `Σ1`. -/
def bsig1 (x : Nat) : Nat := rotr32 6 x ^^^ rotr32 11 x ^^^ rotr32 25 x

/-- SHA-256 `σ0`. -/
def ssig0 (x : Nat) : Nat := rotr32 7 x ^^^ rotr32 18 x ^^^ (x >>> 3)

/-- SHA-256 `σ1`. -/
def ssig1 (x : Nat) : Nat := rotr32 17 x ^^^ rotr32 19 x ^^^ (x >>> 10)

/-- The 64 SHA-256 round constants. -/
def K256 : List Nat :=
  [1116352408, 1899447441, 3049323471, 3921009573, 961987163, 1508970993,
   2453635748, 2870763221, 3624381080, 310598401, 607225278, 1426881987,
   1925078388, 2162078206, 2614888103, 3248222580, 3835390401, 4022224774,
   264347078, 604807628, 770255983, 1249150122, 1555081692, 1996064986,
   2554220882, 2821834349, 2952996808, 3210313671, 3336571891, 3584528711,
   113926993, 338241895, 666307205, 773529912, 1294757372, 1396182291,
   1695183700, 1986661051, 2177026350, 2456956037, 2730485921, 2820302411,
   3259730800, 3345764771, 3516065817, 3600352804, 4094571909, 275423344,
   430227734, 506948616, 659060556, 883997877, 958139571, 1322822218,
   1537002063, 1747873779, 1955562222, 2024104815, 2227730452, 2361852424,
   2428436474, 2756734187, 3204031479, 3329325298]

/-- The initial SHA-256 hash state. -/
def H256init : List Nat :=
  [1779033703, 3144134277, 1013904242, 2773480762,
   1359893119, 2600822924, 528734635, 1541459225]

/-- Big-endian 8-byte encoding of a 64-bit length field. -/
def be64 (n : Nat) : Bytes :=
  [n >>> 56 % 256, n >>> 48 % 256, n >>> 40 % 256, n >>> 32 % 256,
   n >>> 24 % 256, n >>> 16 % 256, n >>> 8 % 256, n % 256]

/-- Big-endian 4-byte encoding of a 32-bit word. -/
def be32 (n : Nat) : Bytes :=
  [n / 16777216 % 256, n / 65536 % 256, n / 256 % 256, n % 256]

/-- SHA-256 message padding: append `0x80`, zeros up to 56 mod 64, and
the 64-bit big-endian bit length. -/
def sha256pad (m : Bytes) : Bytes :=
  m ++ [128] ++ List.replicate ((119 - m.length % 64) % 64) 0 ++ be64 (8 * m.length)

/-- Group bytes into big-endian 32-bit words. -/
def bytesToWords : Bytes → List Nat
  | b0 :: b1 :: b2 :: b3 :: rest =>
      (((b0 * 256 + b1) * 256 + b2) * 256 + b3) :: bytesToWords rest
  | _ => []

/-- Group a word list into 16-word blocks. -/
def wordsToBlocks : List Nat → List (List Nat)
  | w0 :: w1 :: w2 :: w3 :: w4 :: w5 :: w6 :: w7 ::
    w8 :: w9 :: w10 :: w11 :: w12 :: w13 :: w14 :: w15 :: rest =>
      [w0, w1, w2, w3, w4, w5, w6, w7, w8, w9, w10, w11, w12, w13, w14, w15]
        :: wordsToBlocks rest
  | _ => []

/-- Expand a 16-word block to the 64-word message schedule. -/
def msgSched (w : List Nat) : List Nat :=
  (List.range 48).foldl
    (fun acc _ =>
      let n := acc.length
      acc ++ [w32 (ssig1 (acc.getD (n - 2) 0) + acc.getD (n - 7) 0 +
                   ssig0 (acc.getD (n - 15) 0) + acc.getD (n - 16) 0)])
    w

/-- One SHA-256 compression round on the 8-word working state. -/
def compressStep (st : List Nat) (k w : Nat) : List Nat :=
  match st with
  | [a, b, c, d, e, f, g, h] =>
      let t1 := w32 (h + bsig1 e + shaCh e f g + k + w)
      let t2 := w32 (bsig0 a + shaMaj a b c)
      [w32 (t1 + t2), a, b, c, w32 (d + t1), e, f, g]
  | st => st

/-- SHA-256 compression of one 16-word block into the hash state. -/
def compressBlock (H : List Nat) (block : List Nat) : List Nat :=
  let ws := msgSched block
  let st := (List.zip K256 ws).foldl (fun st kw => compressStep st kw.1 kw.2) H
  (List.zip H st).map (fun p => w32 (p.1 + p.2))

/-- SHA-256 of a byte list, as a 32-byte digest. -/
def sha256 (m : Bytes) : Bytes :=
  ((wordsToBlocks (bytesToWords (sha256pad m))).foldl compressBlock H256init).flatMap be32

/-- Go `chain.RoundToBytes`: `binary.BigEndian.PutUint64` of the round. -/
def RoundToBytes (r : Nat) : Bytes :=
  [r >>> 56 % 256, r >>> 48 % 256, r >>> 40 % 256, r >>> 32 % 256,
   r >>> 24 % 256, r >>> 16 % 256, r >>> 8 % 256, r % 256]

/-- The spec's "8-byte big-endian encoding of R", written arithmetically. -/
def bigEndian8 (r : Nat) : Bytes :=
  (List.range 8).map (fun i => r / 256 ^ (7 - i) % 256)

/-- `CalculateEncryptionID` from tlock.go: SHA-256 of the 8-byte
big-endian round encoding.  (`hash.Hash.Write` never fails in Go, so the
error branch is unreachable and the result is always `ok`.) -/
def CalculateEncryptionID (roundNumber : Nat) : Except GoErr Bytes :=
  .ok (sha256 (RoundToBytes roundNumber))

/-! ## Collaborators

The Go interfaces (`Network`, `Encoder`, `Decoder`, `Encrypter`,
`Decrypter`) and the drand library calls (`ibe.Encrypt`, `ibe.Decrypt`,
point marshalling, `chain.NewVerifier(...).VerifyBeacon`) become
function-valued parameters.  Group points are abstracted as their byte
representations. -/

/-- The `Network` interface from tlock.go.  `IsReadyToDecrypt` has no
error return: it yields signature bytes and a readiness flag only. -/
structure Network where
  Host : String
  ChainHash : String
  PublicKey : Ctx → Except GoErr Bytes
  IsReadyToDecrypt : Ctx → Nat → Bytes × Bool
  RoundNumber : Ctx → Nat → Except GoErr Nat
  EncryptionRoundAndID : Ctx → Nat → Except GoErr (Nat × Bytes)

/-- `chain.Beacon` as constructed in `decryptDEK`. -/
structure Beacon where
  Round : Nat
  Signature : Bytes
deriving DecidableEq

/-- `scheme.Scheme` as constructed in `decryptDEK`. -/
structure Scheme where
  ID : String
  DecouplePrevSig : Bool
deriving DecidableEq, Repr

/-- `scheme.UnchainedSchemeID` from the drand library. -/
def UnchainedSchemeID : String := "pedersen-bls-unchained"

/-- The fixed scheme value the spec describes: unchained, with the
previous signature decoupled from the signed message. -/
def unchainedScheme : Scheme :=
  { ID := UnchainedSchemeID, DecouplePrevSig := true }

/-- `ibe.Ciphertext`: `U` is the byte representation of a G1 point. -/
structure IBECiphertext where
  U : Bytes
  V : Bytes
  W : Bytes
deriving DecidableEq, Repr

/-- The drand library calls consumed by `decryptDEK`:
`bls.KyberG2.UnmarshalBinary`, `bls.KyberG1.UnmarshalBinary`,
`chain.NewVerifier(sch).VerifyBeacon`, and `ibe.Decrypt`. -/
structure DecDeps where
  unmarshalG2 : Bytes → Except GoErr Bytes
  unmarshalG1 : Bytes → Except GoErr Bytes
  VerifyBeacon : Scheme → Beacon → Bytes → Except GoErr Unit
  ibeDecrypt : Bytes → Bytes → IBECiphertext → Except GoErr Bytes

/-- The collaborators consumed by `encrypt` besides the network, AEAD
and encoder: `crypto/rand.Read` (as the 32 bytes it would deliver, or a
failure), `ibe.Encrypt`, and `kyber.Point.MarshalBinary` for `U`. -/
structure EncDeps where
  randRead : Except GoErr Bytes
  ibeEncrypt : Bytes → Bytes → Bytes → Except GoErr IBECiphertext
  marshalPoint : Bytes → Except GoErr Bytes

/-- Events recorded by the encryption pipeline, one per collaborator
call, in call order. -/
inductive EEv where
  | randRead
  | pubKey
  | ibeEncrypt
  | marshalU
  | aeadEncrypt (chunk : Bytes)
  | encodeFrame (info : CipherInfo)
deriving DecidableEq, Repr

/-- Events recorded by the decryption pipeline, one per collaborator
call, in call order. -/
inductive DEv where
  | decode
  | isReady (round : Nat) (ready : Bool)
  | unmarshalG2 (ok : Bool)
  | unmarshalG1 (ok : Bool)
  | pubKey (ok : Bool)
  | verify (sch : Scheme) (round : Nat) (ok : Bool)
  | ibeDecrypt
  | aeadDecrypt
  | write
deriving DecidableEq, Repr

/-- One result of `decoder.Decode`: a frame with no error, a frame
returned together with `io.ErrUnexpectedEOF`, plain `io.EOF`, or another
decode error. -/
inductive DecodeResult where
  | frame (info : CipherInfo)
  | lastFrame (info : CipherInfo)
  | eof
  | fail (e : GoErr)
deriving DecidableEq, Repr

/-! ## Encryption pipeline -/

/-- The chunk loop of `encrypt` (tlock.go lines 149-185).  The input
reader is a byte list; `io.ReadFull` on the 64 KiB buffer returns
`io.EOF` when no bytes remain, `io.ErrUnexpectedEOF` (setting `done`)
when fewer than 65536 remain, and a full chunk otherwise.  Returns the
frames written to the output, the error if any, and the event trace. -/
def encryptLoop (enc : Bytes → Bytes → Except GoErr Bytes)
    (encode : CipherInfo → Bool → Except GoErr Unit)
    (dek : Bytes) (cipherInfo : CipherInfo) (armor : Bool)
    (src : Bytes) (done : Bool) :
    List CipherInfo × Option GoErr × List EEv :=
  if done then ([], none, [])
  else if _h : src.length = 0 then ([], none, [])
  else
    let chunk := src.take 65536
    let rest := src.drop 65536
    let done1 := decide (src.length < 65536)
    match enc dek chunk with
    | .error e => ([], some (.wrap "encrypt data" e), [.aeadEncrypt chunk])
    | .ok cd =>
      let info1 := { cipherInfo with CipherData := cd }
      match encode info1 armor with
      | .error e => ([], some (.wrap "encode" e), [.aeadEncrypt chunk, .encodeFrame info1])
      | .ok _ =>
        match encryptLoop enc encode dek cipherInfo armor rest done1 with
        | (fs, er, evs) => (info1 :: fs, er, .aeadEncrypt chunk :: .encodeFrame info1 :: evs)
termination_by src.length
decreasing_by
  simp only [List.length_drop, rest]
  omega

/-- `encrypt` from tlock.go (lines 109-185): draw the DEK, fetch the
public key, IBE-wrap the DEK, marshal `U`, build the session
`CipherInfo`, then run the chunk loop. -/
def encrypt (ctx : Ctx) (net : Network) (deps : EncDeps)
    (enc : Bytes → Bytes → Except GoErr Bytes)
    (encode : CipherInfo → Bool → Except GoErr Unit)
    (roundNumber : Nat) (id : Bytes) (armor : Bool) (src : Bytes) :
    List CipherInfo × Option GoErr × List EEv :=
  match deps.randRead with
  | .error e => ([], some (.wrap "random key" e), [.randRead])
  | .ok dek =>
    match net.PublicKey ctx with
    | .error e => ([], some (.wrap "public key" e), [.randRead, .pubKey])
    | .ok publicKey =>
      match deps.ibeEncrypt publicKey id dek with
      | .error e => ([], some (.wrap "encrypt dek" e), [.randRead, .pubKey, .ibeEncrypt])
      | .ok cipherText =>
        match deps.marshalPoint cipherText.U with
        | .error e =>
            ([], some (.wrap "marshal kyber point" e),
             [.randRead, .pubKey, .ibeEncrypt, .marshalU])
        | .ok kyberPoint =>
          let cipherInfo : CipherInfo :=
            { MetaData := { RoundNumber := roundNumber, ChainHash := net.ChainHash }
              CipherDEK :=
                { KyberPoint := kyberPoint
                  CipherV := cipherText.V
                  CipherW := cipherText.W }
              CipherData := [] }
          match encryptLoop enc encode dek cipherInfo armor src false with
          | (fs, er, evs) =>
              (fs, er, [.randRead, .pubKey, .ibeEncrypt, .marshalU] ++ evs)

/-- `EncryptWithRound` from tlock.go: derive the identity locally from
the round number, then encrypt. -/
def EncryptWithRound (ctx : Ctx) (net : Network) (deps : EncDeps)
    (enc : Bytes → Bytes → Except GoErr Bytes)
    (encode : CipherInfo → Bool → Except GoErr Unit)
    (roundNumber : Nat) (armor : Bool) (src : Bytes) :
    List CipherInfo × Option GoErr × List EEv :=
  match CalculateEncryptionID roundNumber with
  | .error e => ([], some (.wrap "round by number" e), [])
  | .ok id => encrypt ctx net deps enc encode roundNumber id armor src

/-- `EncryptWithDuration` from tlock.go: ask the network for the round
and identity, then encrypt. -/
def EncryptWithDuration (ctx : Ctx) (net : Network) (deps : EncDeps)
    (enc : Bytes → Bytes → Except GoErr Bytes)
    (encode : CipherInfo → Bool → Except GoErr Unit)
    (duration : Nat) (armor : Bool) (src : Bytes) :
    List CipherInfo × Option GoErr × List EEv :=
  match net.EncryptionRoundAndID ctx duration with
  | .error e => ([], some (.wrap "round by duration" e), [])
  | .ok (roundNumber, id) =>
      encrypt ctx net deps enc encode roundNumber id armor src

/-! ## Decryption pipeline -/

/-- `decryptDEK` from tlock.go (lines 239-284): readiness gate, G2 and
G1 unmarshalling, public key fetch, beacon verification with the
hardcoded unchained/decoupled scheme, then IBE decryption.  Returns the
result and the event trace. -/
def decryptDEK (ctx : Ctx) (net : Network) (deps : DecDeps)
    (cipherDEK : CipherDEK) (roundNumber : Nat) :
    Except GoErr Bytes × List DEv :=
  let p := net.IsReadyToDecrypt ctx roundNumber
  let id := p.1
  if p.2 = false then (.error .ErrTooEarly, [.isReady roundNumber false])
  else
    match deps.unmarshalG2 id with
    | .error e =>
        (.error (.wrap "unmarshal kyber G2" e),
         [.isReady roundNumber true, .unmarshalG2 false])
    | .ok dekSignature =>
      match deps.unmarshalG1 cipherDEK.KyberPoint with
      | .error e =>
          (.error (.wrap "unmarshal kyber G1" e),
           [.isReady roundNumber true, .unmarshalG2 true, .unmarshalG1 false])
      | .ok dekKyberPoint =>
        match net.PublicKey ctx with
        | .error e =>
            (.error (.wrap "public key" e),
             [.isReady roundNumber true, .unmarshalG2 true, .unmarshalG1 true,
              .pubKey false])
        | .ok publicKey =>
          let b : Beacon := { Round := roundNumber, Signature := id }
          let sch : Scheme := { ID := UnchainedSchemeID, DecouplePrevSig := true }
          match deps.VerifyBeacon sch b publicKey with
          | .error e =>
              (.error (.wrap "verify beacon" e),
               [.isReady roundNumber true, .unmarshalG2 true, .unmarshalG1 true,
                .pubKey true, .verify sch roundNumber false])
          | .ok _ =>
            let dk : IBECiphertext :=
              { U := dekKyberPoint, V := cipherDEK.CipherV, W := cipherDEK.CipherW }
            match deps.ibeDecrypt publicKey dekSignature dk with
            | .error e =>
                (.error (.wrap "decrypt dek" e),
                 [.isReady roundNumber true, .unmarshalG2 true, .unmarshalG1 true,
                  .pubKey true, .verify sch roundNumber true, .ibeDecrypt])
            | .ok plainDEK =>
                (.ok plainDEK,
                 [.isReady roundNumber true, .unmarshalG2 true, .unmarshalG1 true,
                  .pubKey true, .verify sch roundNumber true, .ibeDecrypt])

/-- The frame loop of `Decrypt` (tlock.go lines 193-235).  The decoder
is a list of `Decode` results; `io.EOF` returns success immediately, a
frame with `io.ErrUnexpectedEOF` is processed with `done` set, another
decode error aborts, and a plain frame is processed with the loop
continuing.  Returns the bytes written to the plaintext sink, the error
if any, and the event trace. -/
def DecryptLoop (ctx : Ctx) (net : Network) (deps : DecDeps)
    (dec : Bytes → Bytes → Except GoErr Bytes)
    (wr : Bytes → Except GoErr Unit)
    (stream : List DecodeResult) (done : Bool) :
    Bytes × Option GoErr × List DEv :=
  if done then ([], none, [])
  else
    match stream with
    | [] => ([], none, [])
    | .eof :: _ => ([], none, [.decode])
    | .fail e :: _ => ([], some (.wrap "decoding input data" e), [.decode])
    | .frame info :: rest =>
      (match decryptDEK ctx net deps info.CipherDEK info.MetaData.RoundNumber with
       | (.error e, evs) => ([], some (.wrap "decrypt dek" e), .decode :: evs)
       | (.ok plainDEK, evs) =>
         match dec plainDEK info.CipherData with
         | .error e =>
             ([], some (.wrap "decrypt data" e), .decode :: evs ++ [.aeadDecrypt])
         | .ok plainData =>
           match wr plainData with
           | .error e =>
               ([], some (.wrap "write data" e),
                .decode :: evs ++ [.aeadDecrypt, .write])
           | .ok _ =>
             match DecryptLoop ctx net deps dec wr rest false with
             | (w, er, evs2) =>
                 (plainData ++ w, er, .decode :: evs ++ [.aeadDecrypt, .write] ++ evs2))
    | .lastFrame info :: rest =>
      (match decryptDEK ctx net deps info.CipherDEK info.MetaData.RoundNumber with
       | (.error e, evs) => ([], some (.wrap "decrypt dek" e), .decode :: evs)
       | (.ok plainDEK, evs) =>
         match dec plainDEK info.CipherData with
         | .error e =>
             ([], some (.wrap "decrypt data" e), .decode :: evs ++ [.aeadDecrypt])
         | .ok plainData =>
           match wr plainData with
           | .error e =>
               ([], some (.wrap "write data" e),
                .decode :: evs ++ [.aeadDecrypt, .write])
           | .ok _ =>
             match DecryptLoop ctx net deps dec wr rest true with
             | (w, er, evs2) =>
                 (plainData ++ w, er, .decode :: evs ++ [.aeadDecrypt, .write] ++ evs2))

/-- `Decrypt` from tlock.go: the frame loop started with `done = false`. -/
def Decrypt (ctx : Ctx) (net : Network) (deps : DecDeps)
    (dec : Bytes → Bytes → Except GoErr Bytes)
    (wr : Bytes → Except GoErr Unit)
    (stream : List DecodeResult) :
    Bytes × Option GoErr × List DEv :=
  DecryptLoop ctx net deps dec wr stream false

/-! ## Spec-side chunking -/

/-- The spec's chunking of a plaintext into 65536-byte pieces, the last
piece possibly shorter. -/
def chunks65536 (l : Bytes) : List Bytes :=
  if _h : l.length = 0 then []
  else l.take 65536 :: chunks65536 (l.drop 65536)
termination_by l.length
decreasing_by
  simp only [List.length_drop]
  omega

/-- Modelled from the spec: the message the drand beacon verifier checks
the signature against.  The drand `chain` verifier itself is library
code outside this repository; per the spec (4.3), with the previous
signature decoupled the message is the SHA-256 hash of the 8-byte
big-endian round alone, and only a chained scheme would mix in the
previous round's signature. -/
def signedMessage (sch : Scheme) (prevSig : Bytes) (round : Nat) : Bytes :=
  if sch.DecouplePrevSig then sha256 (RoundToBytes round)
  else sha256 (prevSig ++ RoundToBytes round)

/-! ## Test fixtures and statement helpers -/

/-- A frame the decryption pipeline can fully process: the DEK unwraps,
the AEAD authenticates, and the sink accepts the chunk. -/
def frameOk (ctx : Ctx) (net : Network) (deps : DecDeps)
    (dec : Bytes → Bytes → Except GoErr Bytes) (wr : Bytes → Except GoErr Unit)
    (info : CipherInfo) : Prop :=
  ∃ dek pd,
    (decryptDEK ctx net deps info.CipherDEK info.MetaData.RoundNumber).1 = .ok dek ∧
    dec dek info.CipherData = .ok pd ∧ wr pd = .ok ()

/-- Builds the frame a chunk produces: the session's metadata and
wrapped key with the chunk's AEAD ciphertext. -/
def mkFrame (info : CipherInfo) (ae : Bytes → Bytes) (c : Bytes) : CipherInfo :=
  { info with CipherData := ae c }

/-- The `CipherInfo` value `encrypt` builds once per session, before
the chunk loop (CipherData still empty). -/
def sessionInfo (net : Network) (roundNumber : Nat) (kyberPoint : Bytes)
    (ct : IBECiphertext) : CipherInfo :=
  { MetaData := { RoundNumber := roundNumber, ChainHash := net.ChainHash }
    CipherDEK := { KyberPoint := kyberPoint, CipherV := ct.V, CipherW := ct.W }
    CipherData := [] }

/-- The plaintext chunks passed to the AEAD, read off the event trace. -/
def evChunks (evs : List EEv) : List Bytes :=
  evs.filterMap fun e =>
    match e with
    | .aeadEncrypt c => some c
    | _ => none

/-- A context in the cancelled state. -/
def cancelledCtx : Ctx := { cancelled := true }

/-- A network client under which every call observes the context: the
calls with an error return report cancellation as an error, while
`IsReadyToDecrypt`, whose interface has no error return, can only
report not-ready when the context is cancelled. -/
def obsNet : Network :=
  { Host := "host"
    ChainHash := "chain"
    PublicKey := fun ctx => if ctx.cancelled then .error .canceled else .ok [1]
    IsReadyToDecrypt := fun ctx _ => if ctx.cancelled then ([], false) else ([2], true)
    RoundNumber := fun ctx _ => if ctx.cancelled then .error .canceled else .ok 1
    EncryptionRoundAndID := fun ctx _ =>
      if ctx.cancelled then .error .canceled else .ok (1, [3]) }

/-- Library collaborators for decryption that always succeed. -/
def okDecDeps : DecDeps :=
  { unmarshalG2 := fun b => .ok b
    unmarshalG1 := fun b => .ok b
    VerifyBeacon := fun _ _ _ => .ok ()
    ibeDecrypt := fun _ _ _ => .ok [9] }

/-- A concrete one-frame ciphertext. -/
def oneFrame : CipherInfo :=
  { MetaData := { RoundNumber := 5, ChainHash := "chain" }
    CipherDEK := { KyberPoint := [7], CipherV := [8], CipherW := [9] }
    CipherData := [1] }

/-- A context that is not cancelled. -/
def okCtx : Ctx := { cancelled := false }

/-- Concrete encryption-side collaborators that always succeed. -/
def testEncDeps : EncDeps :=
  { randRead := .ok (List.replicate 32 7)
    ibeEncrypt := fun _ _ _ => .ok { U := [3], V := [4], W := [5] }
    marshalPoint := fun b => .ok b }

/-- A toy AEAD encryption: prefix a zero byte. -/
def testEnc : Bytes → Bytes → Except GoErr Bytes := fun _ d => .ok (0 :: d)

/-- The pure form of `testEnc`. -/
def testAe : Bytes → Bytes := fun d => 0 :: d

/-- The inverse of `testEnc`: strip the prefix byte. -/
def testDec : Bytes → Bytes → Except GoErr Bytes := fun _ d => .ok (d.drop 1)

/-- An encoder that always succeeds. -/
def testEncode : CipherInfo → Bool → Except GoErr Unit := fun _ _ => .ok ()

/-- A plaintext sink that accepts every write. -/
def testWr : Bytes → Except GoErr Unit := fun _ => .ok ()

/-- Decryption-side collaborators matching `testEncDeps` for the
round-trip: IBE decryption recovers the session DEK. -/
def rtDecDeps : DecDeps :=
  { unmarshalG2 := fun b => .ok b
    unmarshalG1 := fun b => .ok b
    VerifyBeacon := fun _ _ _ => .ok ()
    ibeDecrypt := fun _ _ _ => .ok (List.replicate 32 7) }

/-- Collaborators whose beacon verifier rejects, as it must for a
signature over the wrong round. -/
def vbadDecDeps : DecDeps :=
  { unmarshalG2 := fun b => .ok b
    unmarshalG1 := fun b => .ok b
    VerifyBeacon := fun _ _ _ => .error (.msg "bad sig")
    ibeDecrypt := fun _ _ _ => .ok [9] }

/-- A network observed after cancellation hit during the public key
fetch: the error-returning calls report cancellation, readiness had
already been answered. -/
def lateCancelNet : Network :=
  { Host := "host"
    ChainHash := "chain"
    PublicKey := fun _ => .error .canceled
    IsReadyToDecrypt := fun _ _ => ([2], true)
    RoundNumber := fun _ _ => .error .canceled
    EncryptionRoundAndID := fun _ _ => .error .canceled }


/-! ## Helper lemmas -/

/-- One compression round keeps the working state 8 words long. -/
theorem compressStep_length (st : List Nat) (k w : Nat) :
    (compressStep st k w).length = st.length := by
  unfold compressStep
  split <;> simp

/-- A fold by a length-preserving function preserves length. -/
theorem foldl_length_inv {α : Type} (f : List Nat → α → List Nat)
    (hf : ∀ st x, (f st x).length = st.length) :
    ∀ (l : List α) (st : List Nat), (l.foldl f st).length = st.length := by
  intro l
  induction l with
  | nil => intro st; rfl
  | cons x xs ih => intro st; rw [List.foldl_cons, ih, hf]

/-- Compressing one block keeps the hash state 8 words long. -/
theorem compressBlock_length (H block : List Nat) (h : H.length = 8) :
    (compressBlock H block).length = 8 := by
  unfold compressBlock
  have h2 := foldl_length_inv (fun st kw => compressStep st kw.1 kw.2)
    (fun st kw => compressStep_length st kw.1 kw.2) (List.zip K256 (msgSched block)) H
  simp only [List.length_map, List.length_zip, h, h2]
  omega

/-- Folding compression over any block list keeps the state 8 words. -/
theorem foldl_compressBlock_length (blocks : List (List Nat)) :
    ∀ (H : List Nat), H.length = 8 → (blocks.foldl compressBlock H).length = 8 := by
  induction blocks with
  | nil => intro H h; simpa using h
  | cons b bs ih =>
      intro H h
      rw [List.foldl_cons]
      exact ih _ (compressBlock_length H b h)

/-- `be32` always yields 4 bytes. -/
theorem be32_length (n : Nat) : (be32 n).length = 4 := rfl

/-- Serializing a word list yields 4 bytes per word. -/
theorem flatMap_be32_length (l : List Nat) : (l.flatMap be32).length = 4 * l.length := by
  induction l with
  | nil => rfl
  | cons x xs ih => simp [List.flatMap_cons, ih, be32_length]; omega

/-- A SHA-256 digest is 32 bytes, for every message. -/
theorem sha256_length (m : Bytes) : (sha256 m).length = 32 := by
  unfold sha256
  rw [flatMap_be32_length, foldl_compressBlock_length _ H256init rfl]

/-- The Go big-endian round encoding agrees with the spec's arithmetic
big-endian encoding, for every round number. -/
theorem RoundToBytes_eq_bigEndian8 (r : Nat) : RoundToBytes r = bigEndian8 r := by
  have h8 : List.range 8 = [0, 1, 2, 3, 4, 5, 6, 7] := rfl
  simp only [RoundToBytes, bigEndian8, h8, List.map_cons, List.map_nil,
    Nat.shiftRight_eq_div_pow]
  norm_num

/-- Chunking the empty plaintext gives no chunks. -/
theorem chunks65536_nil : chunks65536 [] = [] := by
  rw [chunks65536]
  rfl

/-- Chunking a nonempty plaintext peels off the first 65536 bytes. -/
theorem chunks65536_cons (l : Bytes) (h : l.length ≠ 0) :
    chunks65536 l = l.take 65536 :: chunks65536 (l.drop 65536) := by
  rw [chunks65536]
  simp [h]

/-- A zero-length plaintext has no chunks. -/
theorem chunks65536_eq_nil (l : Bytes) (h : l.length = 0) : chunks65536 l = [] := by
  rw [chunks65536]
  simp [h]

/-- Concatenating the chunks restores the plaintext. -/
theorem chunks65536_join (l : Bytes) : (chunks65536 l).flatten = l := by
  generalize hn : l.length = n
  induction n using Nat.strong_induction_on generalizing l with
  | _ n ih =>
    by_cases h : l.length = 0
    · rw [chunks65536_eq_nil l h, List.length_eq_zero.mp h]
      rfl
    · rw [chunks65536_cons l h, List.flatten_cons,
        ih (l.drop 65536).length (by simp; omega) _ rfl]
      exact List.take_append_drop 65536 l

/-- The number of chunks is the ceiling of the length over 65536. -/
theorem chunks65536_length (l : Bytes) :
    (chunks65536 l).length = (l.length + 65535) / 65536 := by
  generalize hn : l.length = n
  induction n using Nat.strong_induction_on generalizing l with
  | _ n ih =>
    by_cases h : l.length = 0
    · rw [chunks65536_eq_nil l h]
      have hn0 : n = 0 := by omega
      rw [hn0]
      rfl
    · rw [chunks65536_cons l h, List.length_cons,
        ih (l.drop 65536).length (by simp; omega) _ rfl]
      simp only [List.length_drop]
      omega

/-- Every chunk is between 1 and 65536 bytes long. -/
theorem chunks65536_size (l : Bytes) :
    ∀ c ∈ chunks65536 l, 1 ≤ c.length ∧ c.length ≤ 65536 := by
  generalize hn : l.length = n
  induction n using Nat.strong_induction_on generalizing l with
  | _ n ih =>
    by_cases h : l.length = 0
    · rw [List.length_eq_zero.mp h, chunks65536_nil]
      intro c hc
      exact absurd hc (List.not_mem_nil c)
    · rw [chunks65536_cons l h]
      intro c hc
      rcases List.mem_cons.mp hc with hc | hc
      · subst hc
        simp only [List.length_take]
        omega
      · exact ih (l.drop 65536).length (by simp; omega) _ rfl c hc

/-- Every chunk except the last is exactly 65536 bytes long. -/
theorem chunks65536_full (l : Bytes) (i : Nat)
    (h : i + 1 < (chunks65536 l).length) :
    ((chunks65536 l).getD i []).length = 65536 := by
  generalize hn : l.length = n
  induction n using Nat.strong_induction_on generalizing l i with
  | _ n ih =>
    by_cases h0 : l.length = 0
    · rw [List.length_eq_zero.mp h0, chunks65536_nil] at h
      simp at h
    · rw [chunks65536_cons l h0] at h ⊢
      match i with
      | 0 =>
        have hrest : chunks65536 (l.drop 65536) ≠ [] := by
          intro he
          rw [he] at h
          simp at h
        have hlen : (l.drop 65536).length ≠ 0 := by
          intro he
          rw [List.length_eq_zero.mp he, chunks65536_nil] at hrest
          exact hrest rfl
        simp only [List.getD_cons_zero, List.length_take]
        simp only [List.length_drop] at hlen
        omega
      | i + 1 =>
        simp only [List.getD_cons_succ]
        exact ih (l.drop 65536).length (by simp; omega) (l.drop 65536) i
          (by simpa using h) rfl

/-- When the AEAD and the encoder never fail, the chunk loop emits one
frame per 65536-byte chunk, in order, with the session's metadata and
wrapped key, and records one AEAD call and one encode call per chunk. -/
theorem encryptLoop_ok (enc : Bytes → Bytes → Except GoErr Bytes)
    (encode : CipherInfo → Bool → Except GoErr Unit)
    (dek : Bytes) (info : CipherInfo) (armor : Bool) (ae : Bytes → Bytes)
    (hE : ∀ d, enc dek d = .ok (ae d))
    (hK : ∀ i a, encode i a = .ok ()) (src : Bytes) (done : Bool) :
    encryptLoop enc encode dek info armor src done =
      if done then ([], none, [])
      else
        ((chunks65536 src).map (mkFrame info ae), none,
         (chunks65536 src).flatMap
           (fun c => [.aeadEncrypt c, .encodeFrame (mkFrame info ae c)])) := by
  generalize hn : src.length = n
  induction n using Nat.strong_induction_on generalizing src done with
  | _ n ih =>
    rw [encryptLoop]
    by_cases hd : done
    · simp [hd]
    · simp only [hd, if_false, Bool.false_eq_true]
      by_cases h0 : src.length = 0
      · simp only [h0, dif_pos, chunks65536_eq_nil src h0, List.map_nil,
          List.flatMap_nil]
      · rw [dif_neg h0]
        simp only [hE (src.take 65536), hK]
        rw [ih (src.drop 65536).length (by simp; omega) (src.drop 65536)
          (decide (src.length < 65536)) rfl]
        by_cases hlt : src.length < 65536
        · have hrest : (src.drop 65536).length = 0 := by simp; omega
          simp only [hlt, decide_True, if_true, chunks65536_cons src h0,
            chunks65536_eq_nil _ hrest, List.map_cons, List.map_nil,
            List.flatMap_cons, List.flatMap_nil, mkFrame, List.append_nil]
        · simp only [hlt, decide_False, if_false, chunks65536_cons src h0,
            List.map_cons, List.flatMap_cons, mkFrame, Bool.false_eq_true]
          rfl

/-- Reading the AEAD chunks back out of a per-chunk event trace. -/
theorem evChunks_flatMap (mk : Bytes → CipherInfo) (l : List Bytes) :
    evChunks (l.flatMap fun c => [.aeadEncrypt c, .encodeFrame (mk c)]) = l := by
  induction l with
  | nil => rfl
  | cons c cs ih => simp only [List.flatMap_cons, evChunks, List.filterMap_append] at ih ⊢; rw [ih]; rfl

/-- Every event the chunk loop records is an AEAD call on a chunk of
1..65536 bytes or an encode call — never a DEK draw or an IBE call. -/
theorem encryptLoop_events_shape (enc : Bytes → Bytes → Except GoErr Bytes)
    (encode : CipherInfo → Bool → Except GoErr Unit)
    (dek : Bytes) (info : CipherInfo) (armor : Bool) :
    ∀ (n : Nat) (src : Bytes), src.length = n → ∀ (done : Bool)
      (fs : List CipherInfo) (er : Option GoErr) (evs : List EEv),
      encryptLoop enc encode dek info armor src done = (fs, er, evs) → ∀ e ∈ evs,
      (∃ c, e = .aeadEncrypt c ∧ 1 ≤ c.length ∧ c.length ≤ 65536) ∨
      (∃ i, e = .encodeFrame i) := by
  intro n
  induction n using Nat.strong_induction_on with
  | _ n ih =>
    intro src hn done fs er evs hres e hmem
    rw [encryptLoop] at hres
    by_cases hd : done = true
    · rw [if_pos hd] at hres
      cases hres
      simp at hmem
    · rw [if_neg hd] at hres
      by_cases h0 : src.length = 0
      · rw [dif_pos h0] at hres
        cases hres
        simp at hmem
      · rw [dif_neg h0] at hres
        simp only [] at hres
        have hchunk : 1 ≤ (src.take 65536).length ∧ (src.take 65536).length ≤ 65536 := by
          simp only [List.length_take]
          omega
        split at hres
        · cases hres
          simp only [List.mem_singleton] at hmem
          exact Or.inl ⟨src.take 65536, hmem, hchunk⟩
        · split at hres
          · cases hres
            simp only [List.mem_cons, List.mem_singleton, List.not_mem_nil, or_false] at hmem
            rcases hmem with hmem | hmem
            · exact Or.inl ⟨src.take 65536, hmem, hchunk⟩
            · exact Or.inr ⟨_, hmem⟩
          · cases hres
            rcases hrec : encryptLoop enc encode dek info armor (src.drop 65536)
              (decide (src.length < 65536)) with ⟨fs1, er1, evs1⟩
            rw [hrec] at hmem
            simp only [List.mem_cons] at hmem
            rcases hmem with hmem | hmem | hmem
            · exact Or.inl ⟨src.take 65536, hmem, hchunk⟩
            · exact Or.inr ⟨_, hmem⟩
            · exact ih (src.drop 65536).length (by simp; omega) (src.drop 65536) rfl
                (decide (src.length < 65536)) fs1 er1 evs1 hrec e hmem

/-- Every frame the chunk loop emits carries the session's metadata and
wrapped key unchanged, whatever the collaborators do. -/
theorem encryptLoop_frames_uniform (enc : Bytes → Bytes → Except GoErr Bytes)
    (encode : CipherInfo → Bool → Except GoErr Unit)
    (dek : Bytes) (info : CipherInfo) (armor : Bool) :
    ∀ (n : Nat) (src : Bytes), src.length = n → ∀ (done : Bool)
      (fs : List CipherInfo) (er : Option GoErr) (evs : List EEv),
      encryptLoop enc encode dek info armor src done = (fs, er, evs) → ∀ f ∈ fs,
      f.MetaData = info.MetaData ∧ f.CipherDEK = info.CipherDEK := by
  intro n
  induction n using Nat.strong_induction_on with
  | _ n ih =>
    intro src hn done fs er evs hres f hmem
    rw [encryptLoop] at hres
    by_cases hd : done = true
    · rw [if_pos hd] at hres
      cases hres
      simp at hmem
    · rw [if_neg hd] at hres
      by_cases h0 : src.length = 0
      · rw [dif_pos h0] at hres
        cases hres
        simp at hmem
      · rw [dif_neg h0] at hres
        simp only [] at hres
        split at hres
        · cases hres
          simp at hmem
        · split at hres
          · cases hres
            simp at hmem
          · cases hres
            rcases hrec : encryptLoop enc encode dek info armor (src.drop 65536)
              (decide (src.length < 65536)) with ⟨fs1, er1, evs1⟩
            rw [hrec] at hmem
            simp only [List.mem_cons] at hmem
            rcases hmem with hmem | hmem
            · rw [hmem]
              exact ⟨rfl, rfl⟩
            · exact ih (src.drop 65536).length (by simp; omega) (src.drop 65536) rfl
                (decide (src.length < 65536)) fs1 er1 evs1 hrec f hmem

/-- Under collaborators that succeed, `encrypt` reduces to one frame
per chunk with the session's metadata and wrapped key, no error, and
the prefix events followed by one AEAD and one encode event per chunk. -/
theorem encrypt_ok (ctx : Ctx) (net : Network) (deps : EncDeps)
    (enc : Bytes → Bytes → Except GoErr Bytes)
    (encode : CipherInfo → Bool → Except GoErr Unit)
    (roundNumber : Nat) (id : Bytes) (armor : Bool) (src : Bytes)
    (dek pk up : Bytes) (ct : IBECiphertext) (ae : Bytes → Bytes)
    (hR : deps.randRead = .ok dek)
    (hP : net.PublicKey ctx = .ok pk)
    (hI : deps.ibeEncrypt pk id dek = .ok ct)
    (hM : deps.marshalPoint ct.U = .ok up)
    (hE : ∀ d, enc dek d = .ok (ae d))
    (hK : ∀ i a, encode i a = .ok ()) :
    encrypt ctx net deps enc encode roundNumber id armor src =
      ((chunks65536 src).map (mkFrame (sessionInfo net roundNumber up ct) ae), none,
       [.randRead, .pubKey, .ibeEncrypt, .marshalU] ++
         (chunks65536 src).flatMap
           (fun c => [.aeadEncrypt c,
                      .encodeFrame (mkFrame (sessionInfo net roundNumber up ct) ae c)])) := by
  unfold encrypt
  simp only [hR, hP, hI, hM]
  unfold sessionInfo
  have h := encryptLoop_ok enc encode dek
    { MetaData := { RoundNumber := roundNumber, ChainHash := net.ChainHash }
      CipherDEK := { KyberPoint := up, CipherV := ct.V, CipherW := ct.W }
      CipherData := [] } armor ae hE hK src false
  rw [h]
  simp only [Bool.false_eq_true, if_false]

/-- `evChunks` distributes over appended traces. -/
theorem evChunks_append (a b : List EEv) :
    evChunks (a ++ b) = evChunks a ++ evChunks b :=
  List.filterMap_append a b _

/-- When the network reports not-ready, `decryptDEK` returns
`ErrTooEarly` at once: no unmarshalling, no verification, no IBE. -/
theorem decryptDEK_too_early (ctx : Ctx) (net : Network) (deps : DecDeps)
    (cd : CipherDEK) (r : Nat) (sig : Bytes)
    (hnr : net.IsReadyToDecrypt ctx r = (sig, false)) :
    decryptDEK ctx net deps cd r = (.error .ErrTooEarly, [.isReady r false]) := by
  unfold decryptDEK
  rw [hnr]
  rfl

/-- When every collaborator succeeds, `decryptDEK` returns the plain
DEK after gating, unmarshalling, public key fetch, verification and IBE
decryption, in that order. -/
theorem decryptDEK_ok (ctx : Ctx) (net : Network) (deps : DecDeps)
    (cd : CipherDEK) (r : Nat) (sig g2 g1 pk dek : Bytes)
    (hReady : net.IsReadyToDecrypt ctx r = (sig, true))
    (hG2 : deps.unmarshalG2 sig = .ok g2)
    (hG1 : deps.unmarshalG1 cd.KyberPoint = .ok g1)
    (hP : net.PublicKey ctx = .ok pk)
    (hV : deps.VerifyBeacon unchainedScheme { Round := r, Signature := sig } pk = .ok ())
    (hIBE : deps.ibeDecrypt pk g2 { U := g1, V := cd.CipherV, W := cd.CipherW } = .ok dek) :
    decryptDEK ctx net deps cd r =
      (.ok dek,
       [.isReady r true, .unmarshalG2 true, .unmarshalG1 true,
        .pubKey true, .verify unchainedScheme r true, .ibeDecrypt]) := by
  unfold decryptDEK
  rw [hReady]
  have hV2 : deps.VerifyBeacon { ID := UnchainedSchemeID, DecouplePrevSig := true }
      { Round := r, Signature := sig } pk = .ok () := hV
  simp [hG2, hG1, hP, hV2, hIBE, unchainedScheme]

/-- `decryptDEK` never records decode, AEAD or write events. -/
theorem decryptDEK_no_loop_events (ctx : Ctx) (net : Network) (deps : DecDeps)
    (cd : CipherDEK) (r : Nat) :
    ∀ res evs, decryptDEK ctx net deps cd r = (res, evs) →
      DEv.decode ∉ evs ∧ DEv.aeadDecrypt ∉ evs ∧ DEv.write ∉ evs := by
  intro res evs h
  unfold decryptDEK at h
  rcases hp : net.IsReadyToDecrypt ctx r with ⟨sig, ready⟩
  rw [hp] at h
  simp only [] at h
  cases ready with
  | false =>
    rw [if_pos rfl] at h
    cases h
    simp
  | true =>
    rw [if_neg (by simp)] at h
    repeat' split at h
    all_goals cases h
    all_goals simp

/-- Every verification event `decryptDEK` records uses the hardcoded
unchained, decoupled-previous-signature scheme and the frame's round. -/
theorem decryptDEK_verify_scheme (ctx : Ctx) (net : Network) (deps : DecDeps)
    (cd : CipherDEK) (r : Nat) :
    ∀ res evs, decryptDEK ctx net deps cd r = (res, evs) →
    ∀ sch r2 ok, DEv.verify sch r2 ok ∈ evs →
      sch = unchainedScheme ∧ r2 = r := by
  intro res evs h sch r2 ok hmem
  unfold decryptDEK at h
  rcases hp : net.IsReadyToDecrypt ctx r with ⟨sig, ready⟩
  rw [hp] at h
  simp only [] at h
  cases ready with
  | false =>
    rw [if_pos rfl] at h
    cases h
    simp at hmem
  | true =>
    rw [if_neg (by simp)] at h
    repeat' split at h
    all_goals cases h
    all_goals simp at hmem
    all_goals exact ⟨hmem.1, hmem.2.1⟩

/-- Every verification event the decryption loop records, over any
stream and any collaborators, uses the hardcoded unchained scheme. -/
theorem DecryptLoop_verify_scheme (ctx : Ctx) (net : Network) (deps : DecDeps)
    (dec : Bytes → Bytes → Except GoErr Bytes) (wr : Bytes → Except GoErr Unit) :
    ∀ (stream : List DecodeResult) (done : Bool) w er evs,
      DecryptLoop ctx net deps dec wr stream done = (w, er, evs) →
      ∀ sch r ok, DEv.verify sch r ok ∈ evs → sch = unchainedScheme := by
  intro stream
  induction stream with
  | nil =>
    intro done w er evs h sch r ok hmem
    rw [DecryptLoop.eq_def] at h
    split at h <;> (cases h; simp at hmem)
  | cons head rest ih =>
    intro done w er evs h sch r ok hmem
    rw [DecryptLoop.eq_def] at h
    split at h
    · cases h
      simp at hmem
    · cases head with
      | eof =>
        cases h
        simp at hmem
      | fail e0 =>
        cases h
        simp at hmem
      | frame info =>
        simp only [] at h
        split at h
        · rename_i e evsDK hdk
          cases h
          simp at hmem
          exact (decryptDEK_verify_scheme ctx net deps info.CipherDEK
            info.MetaData.RoundNumber _ _ hdk sch r ok hmem).1
        · rename_i dek evsDK hdk
          split at h
          · rename_i e hdc
            cases h
            simp at hmem
            exact (decryptDEK_verify_scheme ctx net deps info.CipherDEK
              info.MetaData.RoundNumber _ _ hdk sch r ok hmem).1
          · rename_i pd hdc
            split at h
            · rename_i e hw
              cases h
              simp at hmem
              exact (decryptDEK_verify_scheme ctx net deps info.CipherDEK
                info.MetaData.RoundNumber _ _ hdk sch r ok hmem).1
            · rename_i u hw
              cases h
              simp at hmem
              rcases hmem with hmem | hmem
              · exact (decryptDEK_verify_scheme ctx net deps info.CipherDEK
                  info.MetaData.RoundNumber _ _ hdk sch r ok hmem).1
              · exact ih false _ _ _ rfl sch r ok hmem
      | lastFrame info =>
        simp only [] at h
        split at h
        · rename_i e evsDK hdk
          cases h
          simp at hmem
          exact (decryptDEK_verify_scheme ctx net deps info.CipherDEK
            info.MetaData.RoundNumber _ _ hdk sch r ok hmem).1
        · rename_i dek evsDK hdk
          split at h
          · rename_i e hdc
            cases h
            simp at hmem
            exact (decryptDEK_verify_scheme ctx net deps info.CipherDEK
              info.MetaData.RoundNumber _ _ hdk sch r ok hmem).1
          · rename_i pd hdc
            split at h
            · rename_i e hw
              cases h
              simp at hmem
              exact (decryptDEK_verify_scheme ctx net deps info.CipherDEK
                info.MetaData.RoundNumber _ _ hdk sch r ok hmem).1
            · rename_i u hw
              cases h
              simp at hmem
              rcases hmem with hmem | hmem
              · exact (decryptDEK_verify_scheme ctx net deps info.CipherDEK
                  info.MetaData.RoundNumber _ _ hdk sch r ok hmem).1
              · exact ih true _ _ _ rfl sch r ok hmem

/-- The loop returns immediately once `done` is set. -/
theorem DecryptLoop_done (ctx : Ctx) (net : Network) (deps : DecDeps)
    (dec : Bytes → Bytes → Except GoErr Bytes) (wr : Bytes → Except GoErr Unit)
    (stream : List DecodeResult) :
    DecryptLoop ctx net deps dec wr stream true = ([], none, []) := by
  rw [DecryptLoop.eq_def]
  simp

/-- One successful frame: the chunk is decrypted, written, and the loop
continues on the rest of the stream. -/
theorem DecryptLoop_frame_ok_step (ctx : Ctx) (net : Network) (deps : DecDeps)
    (dec : Bytes → Bytes → Except GoErr Bytes) (wr : Bytes → Except GoErr Unit)
    (info : CipherInfo) (rest : List DecodeResult)
    (evsDK : List DEv) (dek pd : Bytes)
    (hdk : decryptDEK ctx net deps info.CipherDEK info.MetaData.RoundNumber =
      (.ok dek, evsDK))
    (h2 : dec dek info.CipherData = .ok pd)
    (h3 : wr pd = .ok ()) :
    DecryptLoop ctx net deps dec wr (.frame info :: rest) false =
      (pd ++ (DecryptLoop ctx net deps dec wr rest false).1,
       (DecryptLoop ctx net deps dec wr rest false).2.1,
       .decode :: evsDK ++ [.aeadDecrypt, .write] ++
         (DecryptLoop ctx net deps dec wr rest false).2.2) := by
  rw [DecryptLoop]
  simp only [hdk, h2, h3]
  rfl

/-- One successful final frame (decoded together with the unexpected
end marker): the chunk is fully processed and the loop stops. -/
theorem DecryptLoop_lastFrame_ok_step (ctx : Ctx) (net : Network) (deps : DecDeps)
    (dec : Bytes → Bytes → Except GoErr Bytes) (wr : Bytes → Except GoErr Unit)
    (info : CipherInfo) (rest : List DecodeResult)
    (evsDK : List DEv) (dek pd : Bytes)
    (hdk : decryptDEK ctx net deps info.CipherDEK info.MetaData.RoundNumber =
      (.ok dek, evsDK))
    (h2 : dec dek info.CipherData = .ok pd)
    (h3 : wr pd = .ok ()) :
    DecryptLoop ctx net deps dec wr (.lastFrame info :: rest) false =
      (pd, none, .decode :: evsDK ++ [.aeadDecrypt, .write]) := by
  rw [DecryptLoop]
  simp only [hdk, h2, h3, DecryptLoop_done]
  simp

/-- A frame whose DEK decryption fails aborts the loop with the wrapped
error and no write. -/
theorem DecryptLoop_frame_dek_error (ctx : Ctx) (net : Network) (deps : DecDeps)
    (dec : Bytes → Bytes → Except GoErr Bytes) (wr : Bytes → Except GoErr Unit)
    (info : CipherInfo) (rest : List DecodeResult) (e : GoErr) (evsDK : List DEv)
    (hdk : decryptDEK ctx net deps info.CipherDEK info.MetaData.RoundNumber =
      (.error e, evsDK)) :
    DecryptLoop ctx net deps dec wr (.frame info :: rest) false =
      ([], some (.wrap "decrypt dek" e), .decode :: evsDK) := by
  rw [DecryptLoop]
  simp only [hdk]
  rfl

/-- Decrypting a stream of frames that all carry the session's wrapped
key and metadata, followed by end-of-input, writes each frame's
plaintext chunk in order and returns success. -/
theorem DecryptLoop_frames_ok (ctx : Ctx) (net : Network) (deps : DecDeps)
    (dec : Bytes → Bytes → Except GoErr Bytes) (wr : Bytes → Except GoErr Unit)
    (info : CipherInfo) (ae : Bytes → Bytes) (dek : Bytes) (evsDK : List DEv)
    (hdk : decryptDEK ctx net deps info.CipherDEK info.MetaData.RoundNumber =
      (.ok dek, evsDK))
    (hD : ∀ d, dec dek (ae d) = .ok d)
    (hW : ∀ b, wr b = .ok ()) :
    ∀ chunks : List Bytes,
      (DecryptLoop ctx net deps dec wr
        (chunks.map (fun c => .frame (mkFrame info ae c)) ++ [.eof]) false).1 =
        chunks.flatten ∧
      (DecryptLoop ctx net deps dec wr
        (chunks.map (fun c => .frame (mkFrame info ae c)) ++ [.eof]) false).2.1 =
        none := by
  intro chunks
  induction chunks with
  | nil =>
    simp only [List.map_nil, List.nil_append]
    rw [DecryptLoop]
    exact ⟨rfl, rfl⟩
  | cons c cs ih =>
    have hdk2 : decryptDEK ctx net deps (mkFrame info ae c).CipherDEK
        (mkFrame info ae c).MetaData.RoundNumber = (.ok dek, evsDK) := hdk
    have hD2 : dec dek (mkFrame info ae c).CipherData = .ok c := hD c
    have step := DecryptLoop_frame_ok_step ctx net deps dec wr (mkFrame info ae c)
      (cs.map (fun c => .frame (mkFrame info ae c)) ++ [.eof]) evsDK dek c
      hdk2 hD2 (hW c)
    simp only [List.map_cons, List.cons_append]
    rw [step]
    exact ⟨by rw [ih.1]; rfl, ih.2⟩

/-! ## Claim theorems -/

/-- C1: for every plaintext and round, if the network later reports
ready with a signature the beacon verifier accepts, and the AEAD, frame
codec and IBE collaborators satisfy their inverse contracts, then
decrypting the encrypted stream writes exactly the original plaintext
to the sink and returns success — for every plaintext length, zero
included.  The codec contract appears as the decoder yielding exactly
the encoded frames followed by end-of-input. -/
theorem encrypt_decrypt_roundtrip (ctx : Ctx) (net : Network)
    (edeps : EncDeps) (ddeps : DecDeps)
    (enc dec : Bytes → Bytes → Except GoErr Bytes)
    (encode : CipherInfo → Bool → Except GoErr Unit)
    (wr : Bytes → Except GoErr Unit)
    (roundNumber : Nat) (id : Bytes) (armor : Bool) (src : Bytes)
    (dek pk up sig g2 g1 : Bytes) (ct : IBECiphertext) (ae : Bytes → Bytes)
    (hR : edeps.randRead = .ok dek)
    (hP : net.PublicKey ctx = .ok pk)
    (hI : edeps.ibeEncrypt pk id dek = .ok ct)
    (hM : edeps.marshalPoint ct.U = .ok up)
    (hE : ∀ d, enc dek d = .ok (ae d))
    (hK : ∀ i a, encode i a = .ok ())
    (hReady : net.IsReadyToDecrypt ctx roundNumber = (sig, true))
    (hG2 : ddeps.unmarshalG2 sig = .ok g2)
    (hG1 : ddeps.unmarshalG1 up = .ok g1)
    (hV : ddeps.VerifyBeacon unchainedScheme { Round := roundNumber, Signature := sig }
      pk = .ok ())
    (hIBE : ddeps.ibeDecrypt pk g2 { U := g1, V := ct.V, W := ct.W } = .ok dek)
    (hD : ∀ d, dec dek (ae d) = .ok d)
    (hW : ∀ b, wr b = .ok ()) :
    (Decrypt ctx net ddeps dec wr
      ((encrypt ctx net edeps enc encode roundNumber id armor src).1.map .frame
        ++ [.eof])).1 = src ∧
    (Decrypt ctx net ddeps dec wr
      ((encrypt ctx net edeps enc encode roundNumber id armor src).1.map .frame
        ++ [.eof])).2.1 = none := by
  rw [encrypt_ok ctx net edeps enc encode roundNumber id armor src dek pk up ct ae
    hR hP hI hM hE hK]
  have hdk : decryptDEK ctx net ddeps
      (sessionInfo net roundNumber up ct).CipherDEK
      (sessionInfo net roundNumber up ct).MetaData.RoundNumber =
      (.ok dek,
       [.isReady roundNumber true, .unmarshalG2 true, .unmarshalG1 true,
        .pubKey true, .verify unchainedScheme roundNumber true, .ibeDecrypt]) :=
    decryptDEK_ok ctx net ddeps (sessionInfo net roundNumber up ct).CipherDEK
      roundNumber sig g2 g1 pk dek hReady hG2 hG1 hP hV hIBE
  have hmain := DecryptLoop_frames_ok ctx net ddeps dec wr
    (sessionInfo net roundNumber up ct) ae dek _ hdk hD hW (chunks65536 src)
  unfold Decrypt
  rw [show ((chunks65536 src).map (mkFrame (sessionInfo net roundNumber up ct) ae)).map
      DecodeResult.frame =
      (chunks65536 src).map
        (fun c => DecodeResult.frame (mkFrame (sessionInfo net roundNumber up ct) ae c))
    from List.map_map _ _ _]
  rw [chunks65536_join src] at hmain
  exact hmain

/-- C3: when the network reports not-ready for the round of a decoded
frame, `Decrypt` aborts with the TooEarly error (observable through
`errors.Is`), decodes no further frames — exactly the frames before and
including the failing one are decoded — and when the failing frame is
the first of the stream, nothing has been written to the sink. -/
theorem decrypt_too_early (ctx : Ctx) (net : Network) (deps : DecDeps)
    (dec : Bytes → Bytes → Except GoErr Bytes) (wr : Bytes → Except GoErr Unit)
    (pre : List CipherInfo) (f : CipherInfo) (rest : List DecodeResult) (sig : Bytes)
    (hok : ∀ i ∈ pre, frameOk ctx net deps dec wr i)
    (hnr : net.IsReadyToDecrypt ctx f.MetaData.RoundNumber = (sig, false)) :
    ∃ w evs,
      Decrypt ctx net deps dec wr (pre.map .frame ++ .frame f :: rest) =
        (w, some (.wrap "decrypt dek" .ErrTooEarly), evs) ∧
      errorsIs (.wrap "decrypt dek" .ErrTooEarly) .ErrTooEarly = true ∧
      evs.count .decode = pre.length + 1 ∧
      (pre = [] → w = []) := by
  unfold Decrypt
  induction pre with
  | nil =>
    refine ⟨[], [.decode, .isReady f.MetaData.RoundNumber false], ?_, rfl, ?_, fun _ => rfl⟩
    · simp only [List.map_nil, List.nil_append]
      rw [DecryptLoop_frame_dek_error ctx net deps dec wr f rest .ErrTooEarly
        [.isReady f.MetaData.RoundNumber false]
        (decryptDEK_too_early ctx net deps f.CipherDEK f.MetaData.RoundNumber sig hnr)]
    · simp [List.count_cons]
  | cons i pre2 ih =>
    obtain ⟨dek, pd, h1, h2, h3⟩ := hok i (List.mem_cons_self i pre2)
    obtain ⟨w2, evs2, heq, _, hcount, _⟩ :=
      ih (fun j hj => hok j (List.mem_cons_of_mem i hj))
    rcases hdk : decryptDEK ctx net deps i.CipherDEK i.MetaData.RoundNumber
      with ⟨res, evsDK⟩
    rw [hdk] at h1
    simp only [] at h1
    subst h1
    refine ⟨pd ++ w2, .decode :: evsDK ++ [.aeadDecrypt, .write] ++ evs2, ?_, rfl, ?_, ?_⟩
    · simp only [List.map_cons, List.cons_append]
      rw [DecryptLoop_frame_ok_step ctx net deps dec wr i _ evsDK dek pd hdk h2 h3, heq]
      rfl
    · have hz : evsDK.count DEv.decode = 0 :=
        List.count_eq_zero.mpr
          (decryptDEK_no_loop_events ctx net deps i.CipherDEK i.MetaData.RoundNumber
            _ _ hdk).1
      simp only [List.count_cons, List.count_append, hz, hcount]
      simp [List.count_cons]
      omega
    · intro hcontra
      exact absurd hcontra (by simp)

/-- C8: a frame returned together with the unexpected-end marker is
still fully processed — DEK unwrap, AEAD decryption and the write to
the sink all happen — and `Decrypt` then returns success without
consuming the rest of the stream; plain end-of-input returns success
immediately, and any other decode error aborts, in both cases without
processing a frame. -/
theorem decrypt_unexpected_end (ctx : Ctx) (net : Network) (deps : DecDeps)
    (dec : Bytes → Bytes → Except GoErr Bytes) (wr : Bytes → Except GoErr Unit)
    (f : CipherInfo) (rest : List DecodeResult) (e0 : GoErr)
    (evsDK : List DEv) (dek pd : Bytes) :
    ((decryptDEK ctx net deps f.CipherDEK f.MetaData.RoundNumber = (.ok dek, evsDK)) →
     dec dek f.CipherData = .ok pd → wr pd = .ok () →
      DecryptLoop ctx net deps dec wr (.lastFrame f :: rest) false =
        (pd, none, .decode :: evsDK ++ [.aeadDecrypt, .write])) ∧
    DecryptLoop ctx net deps dec wr (.eof :: rest) false = ([], none, [.decode]) ∧
    DecryptLoop ctx net deps dec wr (.fail e0 :: rest) false =
      ([], some (.wrap "decoding input data" e0), [.decode]) := by
  refine ⟨?_, ?_, ?_⟩
  · intro hdk h2 h3
    exact DecryptLoop_lastFrame_ok_step ctx net deps dec wr f rest evsDK dek pd hdk h2 h3
  · rw [DecryptLoop]
    rfl
  · rw [DecryptLoop]
    rfl

/-- C9 counterexample: the claim fails on the code for the beacon
readiness fetch.  `Network.IsReadyToDecrypt` has no error return, so a
network call that fails because the context was cancelled can only
surface as not-ready, and `Decrypt` then returns the TooEarly error —
an error of another kind — rather than a cancellation error. -/
theorem decrypt_cancelled_counterexample :
    (Decrypt cancelledCtx obsNet okDecDeps (fun _ d => .ok d) (fun _ => .ok ())
        [.frame oneFrame]).2.1 = some (.wrap "decrypt dek" .ErrTooEarly) ∧
    errorsIs (.wrap "decrypt dek" .ErrTooEarly) .ErrTooEarly = true ∧
    errorsIs (.wrap "decrypt dek" .ErrTooEarly) .canceled = false ∧
    (obsNet.IsReadyToDecrypt cancelledCtx 5 = ([], false)) := by
  refine ⟨rfl, rfl, rfl, rfl⟩

/-- C9 (amended): for the network calls that have an error return —
public key fetch during encryption or decryption, and round resolution
for duration-based encryption — a cancellation failure is returned as a
wrapped cancellation error recognisable by `errors.Is`, and no frames
or plaintext are emitted after the failed call; the readiness fetch has
no error return and cancellation there surfaces as TooEarly (see the
counterexample). -/
theorem cancel_propagation (ctx : Ctx) (net : Network) (edeps : EncDeps)
    (deps : DecDeps)
    (enc dec : Bytes → Bytes → Except GoErr Bytes)
    (encode : CipherInfo → Bool → Except GoErr Unit)
    (wr : Bytes → Except GoErr Unit)
    (roundNumber duration : Nat) (id dek sig g2 g1 : Bytes) (armor : Bool)
    (src : Bytes) (info : CipherInfo) (rest : List DecodeResult) :
    (edeps.randRead = .ok dek → net.PublicKey ctx = .error .canceled →
      encrypt ctx net edeps enc encode roundNumber id armor src =
        ([], some (.wrap "public key" .canceled), [.randRead, .pubKey])) ∧
    (net.EncryptionRoundAndID ctx duration = .error .canceled →
      EncryptWithDuration ctx net edeps enc encode duration armor src =
        ([], some (.wrap "round by duration" .canceled), [])) ∧
    (net.IsReadyToDecrypt ctx info.MetaData.RoundNumber = (sig, true) →
      deps.unmarshalG2 sig = .ok g2 →
      deps.unmarshalG1 info.CipherDEK.KyberPoint = .ok g1 →
      net.PublicKey ctx = .error .canceled →
      DecryptLoop ctx net deps dec wr (.frame info :: rest) false =
        ([], some (.wrap "decrypt dek" (.wrap "public key" .canceled)),
         [.decode, .isReady info.MetaData.RoundNumber true, .unmarshalG2 true,
          .unmarshalG1 true, .pubKey false])) ∧
    errorsIs (.wrap "public key" .canceled) .canceled = true ∧
    errorsIs (.wrap "decrypt dek" (.wrap "public key" .canceled)) .canceled = true := by
  refine ⟨?_, ?_, ?_, rfl, rfl⟩
  · intro hR hP
    unfold encrypt
    rw [hR]
    simp only []
    rw [hP]
  · intro hD
    unfold EncryptWithDuration
    rw [hD]
  · intro hReady hG2 hG1 hP
    have hdk : decryptDEK ctx net deps info.CipherDEK info.MetaData.RoundNumber =
        (.error (.wrap "public key" .canceled),
         [.isReady info.MetaData.RoundNumber true, .unmarshalG2 true,
          .unmarshalG1 true, .pubKey false]) := by
      unfold decryptDEK
      rw [hReady]
      simp [hG2, hG1, hP]
    rw [DecryptLoop_frame_dek_error ctx net deps dec wr info rest _ _ hdk]

/-- C4: IBE decryption is attempted only after beacon verification for
the frame's round has succeeded — a successful verification event for
the frame's round precedes the IBE event in every trace that contains
one; and when the verifier rejects (as it must for a signature over a
different round), `decryptDEK` fails with the verify error and never
reaches IBE decryption. -/
theorem decryptDEK_verify_gates_ibe (ctx : Ctx) (net : Network) (deps : DecDeps)
    (cd : CipherDEK) (roundNumber : Nat) :
    (∀ res evs, decryptDEK ctx net deps cd roundNumber = (res, evs) →
      DEv.ibeDecrypt ∈ evs →
      [DEv.verify unchainedScheme roundNumber true, DEv.ibeDecrypt].Sublist evs) ∧
    (∀ sig g2 g1 pk e,
      net.IsReadyToDecrypt ctx roundNumber = (sig, true) →
      deps.unmarshalG2 sig = .ok g2 →
      deps.unmarshalG1 cd.KyberPoint = .ok g1 →
      net.PublicKey ctx = .ok pk →
      deps.VerifyBeacon unchainedScheme { Round := roundNumber, Signature := sig } pk =
        .error e →
      (decryptDEK ctx net deps cd roundNumber).1 = .error (.wrap "verify beacon" e) ∧
      DEv.ibeDecrypt ∉ (decryptDEK ctx net deps cd roundNumber).2) := by
  constructor
  · intro res evs h hmem
    unfold decryptDEK at h
    rcases hp : net.IsReadyToDecrypt ctx roundNumber with ⟨sig, ready⟩
    rw [hp] at h
    simp only [] at h
    cases ready with
    | false =>
      rw [if_pos rfl] at h
      cases h
      simp at hmem
    | true =>
      rw [if_neg (by simp)] at h
      repeat' split at h
      all_goals cases h
      all_goals first
        | exact ((((List.Sublist.refl _).cons _).cons _).cons _).cons _
        | exact absurd hmem (by simp)
  · intro sig g2 g1 pk e hReady hG2 hG1 hP hV
    have hV2 : deps.VerifyBeacon { ID := UnchainedSchemeID, DecouplePrevSig := true }
        { Round := roundNumber, Signature := sig } pk = .error e := hV
    unfold decryptDEK
    rw [hReady]
    simp [hG2, hG1, hP, hV2]

/-- C7: beacon verification during decryption always uses the fixed
unchained, decoupled-previous-signature scheme, for every frame of
every stream and every network, with no negotiation; and under that
scheme the signed message depends only on the round number — never on a
previous round's signature. -/
theorem decrypt_fixed_scheme (ctx : Ctx) (net : Network) (deps : DecDeps)
    (dec : Bytes → Bytes → Except GoErr Bytes) (wr : Bytes → Except GoErr Unit) :
    (∀ (stream : List DecodeResult) w er evs,
      Decrypt ctx net deps dec wr stream = (w, er, evs) →
      ∀ sch r ok, DEv.verify sch r ok ∈ evs → sch = unchainedScheme) ∧
    (∀ prevSig prevSig2 r,
      signedMessage unchainedScheme prevSig r = sha256 (RoundToBytes r) ∧
      signedMessage unchainedScheme prevSig r =
        signedMessage unchainedScheme prevSig2 r) := by
  constructor
  · intro stream w er evs h
    exact DecryptLoop_verify_scheme ctx net deps dec wr stream false w er evs h
  · intro prevSig prevSig2 r
    have h : ∀ s : Bytes, signedMessage unchainedScheme s r = sha256 (RoundToBytes r) := by
      intro s
      unfold signedMessage unchainedScheme
      rw [if_pos rfl]
    exact ⟨h prevSig, (h prevSig).trans (h prevSig2).symm⟩

/-- C5: with collaborators that do not fail, encrypting a plaintext of
length L emits exactly `ceil(L / 65536)` frames; the AEAD is invoked on
exactly the successive 65536-byte chunks of the plaintext; every chunk
except the last is exactly 65536 bytes; the last carries 1..65536
bytes; and the empty plaintext emits no frames at all. -/
theorem encrypt_frame_count (ctx : Ctx) (net : Network) (deps : EncDeps)
    (enc : Bytes → Bytes → Except GoErr Bytes)
    (encode : CipherInfo → Bool → Except GoErr Unit)
    (roundNumber : Nat) (id : Bytes) (armor : Bool) (src : Bytes)
    (dek pk up : Bytes) (ct : IBECiphertext) (ae : Bytes → Bytes)
    (hR : deps.randRead = .ok dek)
    (hP : net.PublicKey ctx = .ok pk)
    (hI : deps.ibeEncrypt pk id dek = .ok ct)
    (hM : deps.marshalPoint ct.U = .ok up)
    (hE : ∀ d, enc dek d = .ok (ae d))
    (hK : ∀ i a, encode i a = .ok ()) :
    (encrypt ctx net deps enc encode roundNumber id armor src).1.length =
      (src.length + 65535) / 65536 ∧
    evChunks (encrypt ctx net deps enc encode roundNumber id armor src).2.2 =
      chunks65536 src ∧
    (src = [] → (encrypt ctx net deps enc encode roundNumber id armor src).1 = []) ∧
    (∀ i, i + 1 < (chunks65536 src).length →
      ((chunks65536 src).getD i []).length = 65536) ∧
    (∀ c ∈ chunks65536 src, 1 ≤ c.length ∧ c.length ≤ 65536) := by
  rw [encrypt_ok ctx net deps enc encode roundNumber id armor src dek pk up ct ae
    hR hP hI hM hE hK]
  refine ⟨?_, ?_, ?_, chunks65536_full src, chunks65536_size src⟩
  · simp [chunks65536_length]
  · show evChunks ([.randRead, .pubKey, .ibeEncrypt, .marshalU] ++ _) = _
    rw [evChunks_append,
      evChunks_flatMap (fun c => mkFrame (sessionInfo net roundNumber up ct) ae c)]
    rfl
  · intro h
    subst h
    simp [chunks65536_nil]

/-- C6: in one encryption session the random source is consulted for
the DEK exactly once and before anything else (in particular before the
chunk loop), IBE encryption of the DEK happens exactly once, and all
emitted frames agree on their `(MetaData, CipherDEK)` pair — only
`CipherData` differs between frames. -/
theorem encrypt_session_once (ctx : Ctx) (net : Network) (deps : EncDeps)
    (enc : Bytes → Bytes → Except GoErr Bytes)
    (encode : CipherInfo → Bool → Except GoErr Unit)
    (roundNumber : Nat) (id : Bytes) (armor : Bool) (src : Bytes)
    (dek pk : Bytes)
    (hR : deps.randRead = .ok dek)
    (hP : net.PublicKey ctx = .ok pk) :
    (encrypt ctx net deps enc encode roundNumber id armor src).2.2.count .randRead = 1 ∧
    (encrypt ctx net deps enc encode roundNumber id armor src).2.2.head? =
      some .randRead ∧
    (encrypt ctx net deps enc encode roundNumber id armor src).2.2.count .ibeEncrypt = 1 ∧
    (∀ f1 ∈ (encrypt ctx net deps enc encode roundNumber id armor src).1,
     ∀ f2 ∈ (encrypt ctx net deps enc encode roundNumber id armor src).1,
      f1.MetaData = f2.MetaData ∧ f1.CipherDEK = f2.CipherDEK) := by
  unfold encrypt
  rw [hR, hP]
  simp only []
  cases hI : deps.ibeEncrypt pk id dek with
  | error e => exact ⟨rfl, rfl, rfl, by simp⟩
  | ok ct =>
    simp only []
    cases hM : deps.marshalPoint ct.U with
    | error e => exact ⟨rfl, rfl, rfl, by simp⟩
    | ok up =>
      simp only []
      rcases hrec : encryptLoop enc encode dek
        { MetaData := { RoundNumber := roundNumber, ChainHash := net.ChainHash }
          CipherDEK := { KyberPoint := up, CipherV := ct.V, CipherW := ct.W }
          CipherData := [] } armor src false with ⟨fs, er, evs⟩
      have hshape := encryptLoop_events_shape enc encode dek _ armor src.length src rfl
        false fs er evs hrec
      have huni := encryptLoop_frames_uniform enc encode dek _ armor src.length src rfl
        false fs er evs hrec
      simp only [hrec]
      refine ⟨?_, rfl, ?_, ?_⟩
      · show ([EEv.randRead, .pubKey, .ibeEncrypt, .marshalU] ++ evs).count .randRead = 1
        rw [List.count_append]
        have h0 : evs.count .randRead = 0 := by
          rw [List.count_eq_zero]
          intro hmem
          rcases hshape _ hmem with ⟨c, hc, _⟩ | ⟨i, hi⟩
          · exact absurd hc (by simp)
          · exact absurd hi (by simp)
        rw [h0]
        decide
      · show ([EEv.randRead, .pubKey, .ibeEncrypt, .marshalU] ++ evs).count .ibeEncrypt = 1
        rw [List.count_append]
        have h0 : evs.count .ibeEncrypt = 0 := by
          rw [List.count_eq_zero]
          intro hmem
          rcases hshape _ hmem with ⟨c, hc, _⟩ | ⟨i, hi⟩
          · exact absurd hc (by simp)
          · exact absurd hi (by simp)
        rw [h0]
        decide
      · intro f1 h1 f2 h2
        have u1 := huni f1 h1
        have u2 := huni f2 h2
        exact ⟨u1.1.trans u2.1.symm, u1.2.trans u2.2.symm⟩

/-- C10: every AEAD encryption the pipeline performs is over a chunk of
1 to 65536 plaintext bytes — a frame is never produced for an empty
chunk — and the chunk loop stops immediately on a zero-byte read,
emitting nothing. -/
theorem encrypt_no_empty_chunk (ctx : Ctx) (net : Network) (deps : EncDeps)
    (enc : Bytes → Bytes → Except GoErr Bytes)
    (encode : CipherInfo → Bool → Except GoErr Unit)
    (roundNumber : Nat) (id : Bytes) (armor : Bool) (src : Bytes) :
    (∀ c, EEv.aeadEncrypt c ∈ (encrypt ctx net deps enc encode roundNumber id armor src).2.2 →
      1 ≤ c.length ∧ c.length ≤ 65536) ∧
    (∀ dek info done, encryptLoop enc encode dek info armor [] done = ([], none, [])) := by
  constructor
  · intro c hmem
    unfold encrypt at hmem
    cases hR : deps.randRead with
    | error e => rw [hR] at hmem; simp at hmem
    | ok dek =>
      rw [hR] at hmem
      simp only [] at hmem
      cases hP : net.PublicKey ctx with
      | error e => rw [hP] at hmem; simp at hmem
      | ok pk =>
        rw [hP] at hmem
        simp only [] at hmem
        cases hI : deps.ibeEncrypt pk id dek with
        | error e => rw [hI] at hmem; simp at hmem
        | ok ct =>
          rw [hI] at hmem
          simp only [] at hmem
          cases hM : deps.marshalPoint ct.U with
          | error e => rw [hM] at hmem; simp at hmem
          | ok up =>
            rw [hM] at hmem
            simp only [] at hmem
            rcases hrec : encryptLoop enc encode dek
              { MetaData := { RoundNumber := roundNumber, ChainHash := net.ChainHash }
                CipherDEK := { KyberPoint := up, CipherV := ct.V, CipherW := ct.W }
                CipherData := [] } armor src false with ⟨fs, er, evs⟩
            rw [hrec] at hmem
            have hshape := encryptLoop_events_shape enc encode dek _ armor src.length src
              rfl false fs er evs hrec
            have hin : EEv.aeadEncrypt c ∈ evs := by
              simp only [List.mem_append, List.mem_cons] at hmem
              rcases hmem with ((h | h | h | h) | h)
              · exact absurd h (by simp)
              · exact absurd h (by simp)
              · exact absurd h (by simp)
              · exact absurd h (by simp)
              · exact h
            rcases hshape _ hin with ⟨c1, hc, hb⟩ | ⟨i, hi⟩
            · cases hc
              exact hb
            · exact absurd hi (by simp)
  · intro dek info done
    rw [encryptLoop]
    simp

/-- C2: for every round number R, `CalculateEncryptionID R` succeeds and
returns the 32-byte SHA-256 digest of the 8-byte big-endian encoding of
R; it is deterministic, and at R = 1 it returns exactly the SHA-256 of
the bytes `00 00 00 00 00 00 00 01`. -/
theorem calculateEncryptionID_correct :
    (∀ r, CalculateEncryptionID r = .ok (sha256 (bigEndian8 r))) ∧
    (∀ r d, CalculateEncryptionID r = .ok d → d.length = 32) ∧
    (∀ r, CalculateEncryptionID r = CalculateEncryptionID r) ∧
    CalculateEncryptionID 1 = .ok (sha256 [0, 0, 0, 0, 0, 0, 0, 1]) ∧
    CalculateEncryptionID 1 =
      .ok [205, 38, 98, 21, 78, 109, 118, 178, 178, 185, 46, 112, 192, 202,
           195, 204, 245, 52, 249, 183, 78, 181, 184, 152, 25, 236, 80, 144,
           131, 208, 10, 80] := by
  refine ⟨fun r => ?_, fun r d h => ?_, fun r => rfl,
    congrArg Except.ok (by decide), congrArg Except.ok (by decide)⟩
  · rw [CalculateEncryptionID, RoundToBytes_eq_bigEndian8]
  · have : d = sha256 (RoundToBytes r) := by
      simpa [CalculateEncryptionID] using h.symm
    rw [this, sha256_length]

/-! ## Witnesses -/

/-- Witness for C1 at a concrete plaintext. -/
theorem encrypt_decrypt_roundtrip_witness :
    (Decrypt okCtx obsNet rtDecDeps testDec testWr
      ((encrypt okCtx obsNet testEncDeps testEnc testEncode 5 [9] false [1, 2, 3]).1.map
        .frame ++ [.eof])).1 = [1, 2, 3] ∧
    (Decrypt okCtx obsNet rtDecDeps testDec testWr
      ((encrypt okCtx obsNet testEncDeps testEnc testEncode 5 [9] false [1, 2, 3]).1.map
        .frame ++ [.eof])).2.1 = none :=
  encrypt_decrypt_roundtrip okCtx obsNet testEncDeps rtDecDeps testEnc testDec
    testEncode testWr 5 [9] false [1, 2, 3]
    (List.replicate 32 7) [1] [3] [2] [2] [3] { U := [3], V := [4], W := [5] } testAe
    rfl rfl rfl rfl (fun _ => rfl) (fun _ _ => rfl)
    rfl rfl rfl rfl rfl (fun _ => rfl) (fun _ => rfl)

/-- Witness for C2 at round 1. -/
theorem calculateEncryptionID_correct_witness :
    ([205, 38, 98, 21, 78, 109, 118, 178, 178, 185, 46, 112, 192, 202,
      195, 204, 245, 52, 249, 183, 78, 181, 184, 152, 25, 236, 80, 144,
      131, 208, 10, 80] : Bytes).length = 32 :=
  calculateEncryptionID_correct.2.1 1 _ calculateEncryptionID_correct.2.2.2.2

/-- Witness for C3: first frame not ready. -/
theorem decrypt_too_early_witness :
    ∃ w evs,
      Decrypt cancelledCtx obsNet okDecDeps (fun _ d => .ok d) testWr
        (([] : List CipherInfo).map .frame ++ .frame oneFrame :: []) =
        (w, some (.wrap "decrypt dek" .ErrTooEarly), evs) ∧
      errorsIs (.wrap "decrypt dek" .ErrTooEarly) .ErrTooEarly = true ∧
      evs.count .decode = ([] : List CipherInfo).length + 1 ∧
      (([] : List CipherInfo) = [] → w = []) :=
  decrypt_too_early cancelledCtx obsNet okDecDeps (fun _ d => .ok d) testWr
    [] oneFrame [] []
    (fun i hi => absurd hi (List.not_mem_nil i)) rfl

/-- Witness for C4: a rejected verification stops before IBE; an
accepted one precedes IBE in the trace. -/
theorem decryptDEK_verify_gates_ibe_witness :
    ([DEv.verify unchainedScheme 5 true, DEv.ibeDecrypt].Sublist
      [DEv.isReady 5 true, .unmarshalG2 true, .unmarshalG1 true, .pubKey true,
       .verify unchainedScheme 5 true, .ibeDecrypt]) ∧
    (decryptDEK okCtx obsNet vbadDecDeps oneFrame.CipherDEK 5).1 =
      .error (.wrap "verify beacon" (.msg "bad sig")) ∧
    DEv.ibeDecrypt ∉ (decryptDEK okCtx obsNet vbadDecDeps oneFrame.CipherDEK 5).2 := by
  refine ⟨?_, ?_, ?_⟩
  · exact (decryptDEK_verify_gates_ibe okCtx obsNet okDecDeps oneFrame.CipherDEK 5).1
      (.ok [9]) _ rfl (by decide)
  · exact ((decryptDEK_verify_gates_ibe okCtx obsNet vbadDecDeps oneFrame.CipherDEK 5).2
      [2] [2] [7] [1] (.msg "bad sig") rfl rfl rfl rfl rfl).1
  · exact ((decryptDEK_verify_gates_ibe okCtx obsNet vbadDecDeps oneFrame.CipherDEK 5).2
      [2] [2] [7] [1] (.msg "bad sig") rfl rfl rfl rfl rfl).2

/-- Witness for C5: a 3-byte plaintext yields exactly one frame. -/
theorem encrypt_frame_count_witness :
    (encrypt okCtx obsNet testEncDeps testEnc testEncode 5 [9] false [1, 2, 3]).1.length =
      (([1, 2, 3] : Bytes).length + 65535) / 65536 ∧
    evChunks (encrypt okCtx obsNet testEncDeps testEnc testEncode 5 [9] false
      [1, 2, 3]).2.2 = chunks65536 [1, 2, 3] ∧
    (([1, 2, 3] : Bytes) = [] →
      (encrypt okCtx obsNet testEncDeps testEnc testEncode 5 [9] false [1, 2, 3]).1 = []) ∧
    (∀ i, i + 1 < (chunks65536 ([1, 2, 3] : Bytes)).length →
      ((chunks65536 ([1, 2, 3] : Bytes)).getD i []).length = 65536) ∧
    (∀ c ∈ chunks65536 ([1, 2, 3] : Bytes), 1 ≤ c.length ∧ c.length ≤ 65536) :=
  encrypt_frame_count okCtx obsNet testEncDeps testEnc testEncode 5 [9] false [1, 2, 3]
    (List.replicate 32 7) [1] [3] { U := [3], V := [4], W := [5] } testAe
    rfl rfl rfl rfl (fun _ => rfl) (fun _ _ => rfl)

/-- Witness for C6. -/
theorem encrypt_session_once_witness :
    (encrypt okCtx obsNet testEncDeps testEnc testEncode 5 [9] false
      [1, 2, 3]).2.2.count .randRead = 1 ∧
    (encrypt okCtx obsNet testEncDeps testEnc testEncode 5 [9] false
      [1, 2, 3]).2.2.head? = some .randRead ∧
    (encrypt okCtx obsNet testEncDeps testEnc testEncode 5 [9] false
      [1, 2, 3]).2.2.count .ibeEncrypt = 1 ∧
    (∀ f1 ∈ (encrypt okCtx obsNet testEncDeps testEnc testEncode 5 [9] false [1, 2, 3]).1,
     ∀ f2 ∈ (encrypt okCtx obsNet testEncDeps testEnc testEncode 5 [9] false [1, 2, 3]).1,
      f1.MetaData = f2.MetaData ∧ f1.CipherDEK = f2.CipherDEK) :=
  encrypt_session_once okCtx obsNet testEncDeps testEnc testEncode 5 [9] false [1, 2, 3]
    (List.replicate 32 7) [1] rfl rfl

/-- Witness for C7: a run whose trace holds a verification event, and
the decoupled message at a concrete round. -/
theorem decrypt_fixed_scheme_witness :
    unchainedScheme = unchainedScheme ∧
    signedMessage unchainedScheme [1] 5 = sha256 (RoundToBytes 5) := by
  refine ⟨?_, ?_⟩
  · exact (decrypt_fixed_scheme okCtx obsNet okDecDeps (fun _ d => .ok d) testWr).1
      [.frame oneFrame] _ _ _ rfl unchainedScheme 5 true (by decide)
  · exact ((decrypt_fixed_scheme okCtx obsNet okDecDeps (fun _ d => .ok d) testWr).2
      [1] [2] 5).1

/-- Witness for C8 on a concrete final frame. -/
theorem decrypt_unexpected_end_witness :
    DecryptLoop okCtx obsNet okDecDeps (fun _ d => .ok d) testWr
      (.lastFrame oneFrame :: []) false =
      ([1], none,
       .decode :: [DEv.isReady 5 true, .unmarshalG2 true, .unmarshalG1 true,
         .pubKey true, .verify unchainedScheme 5 true, .ibeDecrypt] ++
         [.aeadDecrypt, .write]) ∧
    DecryptLoop okCtx obsNet okDecDeps (fun _ d => .ok d) testWr (.eof :: []) false =
      ([], none, [.decode]) ∧
    DecryptLoop okCtx obsNet okDecDeps (fun _ d => .ok d) testWr
      (.fail (.msg "boom") :: []) false =
      ([], some (.wrap "decoding input data" (.msg "boom")), [.decode]) := by
  have h := decrypt_unexpected_end okCtx obsNet okDecDeps (fun _ d => .ok d) testWr
    oneFrame [] (.msg "boom")
    [DEv.isReady 5 true, .unmarshalG2 true, .unmarshalG1 true, .pubKey true,
     .verify unchainedScheme 5 true, .ibeDecrypt] [9] [1]
  exact ⟨h.1 rfl rfl rfl, h.2.1, h.2.2⟩

/-- Witness for the amended C9 under a cancelled context. -/
theorem cancel_propagation_witness :
    encrypt cancelledCtx lateCancelNet testEncDeps testEnc testEncode 5 [9] false
      [1, 2, 3] = ([], some (.wrap "public key" .canceled), [.randRead, .pubKey]) ∧
    EncryptWithDuration cancelledCtx lateCancelNet testEncDeps testEnc testEncode 9 false
      [1, 2, 3] = ([], some (.wrap "round by duration" .canceled), []) ∧
    DecryptLoop cancelledCtx lateCancelNet okDecDeps (fun _ d => .ok d) testWr
      (.frame oneFrame :: []) false =
      ([], some (.wrap "decrypt dek" (.wrap "public key" .canceled)),
       [.decode, .isReady oneFrame.MetaData.RoundNumber true, .unmarshalG2 true,
        .unmarshalG1 true, .pubKey false]) ∧
    errorsIs (.wrap "public key" .canceled) .canceled = true ∧
    errorsIs (.wrap "decrypt dek" (.wrap "public key" .canceled)) .canceled = true := by
  have h := cancel_propagation cancelledCtx lateCancelNet testEncDeps okDecDeps
    testEnc (fun _ d => .ok d) testEncode testWr 5 9 [9] (List.replicate 32 7) [2] [2] [7]
    false [1, 2, 3] oneFrame []
  exact ⟨h.1 rfl rfl, h.2.1 rfl, h.2.2.1 rfl rfl rfl rfl, h.2.2.2.1, h.2.2.2.2⟩

/-- Witness for C10: the single chunk of a 3-byte plaintext is nonempty
and within bounds. -/
theorem encrypt_no_empty_chunk_witness :
    (1 ≤ ([1, 2, 3] : Bytes).length ∧ ([1, 2, 3] : Bytes).length ≤ 65536) ∧
    encryptLoop testEnc testEncode [7] oneFrame false [] false = ([], none, []) := by
  constructor
  · have hmem : EEv.aeadEncrypt [1, 2, 3] ∈
        (encrypt okCtx obsNet testEncDeps testEnc testEncode 5 [9] false [1, 2, 3]).2.2 := by
      rw [encrypt_ok okCtx obsNet testEncDeps testEnc testEncode 5 [9] false [1, 2, 3]
          (List.replicate 32 7) [1] [3] { U := [3], V := [4], W := [5] } testAe
          rfl rfl rfl rfl (fun _ => rfl) (fun _ _ => rfl),
        chunks65536_cons _ (by decide), chunks65536_eq_nil _ (by decide)]
      have ht : List.take 65536 ([1, 2, 3] : Bytes) = [1, 2, 3] := by decide
      rw [ht]
      simp
    exact (encrypt_no_empty_chunk okCtx obsNet testEncDeps testEnc testEncode
      5 [9] false [1, 2, 3]).1 [1, 2, 3] hmem
  · exact (encrypt_no_empty_chunk okCtx obsNet testEncDeps testEnc testEncode
      5 [9] false [1, 2, 3]).2 [7] oneFrame false

end Tlock
